import Mathlib

/-!
Verification of the motion-detection pipeline of this repository
(`motion_detector.py`, configured by `config.py`, with the tuner's
parameter-update callbacks from `motion_tuner.py`).

Shallow embedding conventions:
* A grayscale image is a pair of dimensions together with a total pixel
  function (`Img`); the background accumulator is rational-valued (`QImg`)
  since the source keeps it as a float32 array.
* OpenCV library calls are modelled by their documented pointwise
  semantics: `cv2.absdiff` is pointwise absolute difference,
  `cv2.threshold(..., THRESH_BINARY)` maps a pixel to 255 iff it strictly
  exceeds the threshold, erosion/dilation are min/max over the square
  structuring-element window (border value 255 for erosion and 0 for
  dilation, matching OpenCV's defaults for binary images),
  `cv2.findContours(..., RETR_EXTERNAL)` yields the outer contours of the
  8-connected components of the foreground, `cv2.boundingRect` the
  bounding box of a component, and `cv2.contourArea` the Green-formula
  (shoelace) area of the traced outer boundary polygon - 0 for
  one-pixel-wide components, `(w - 1) * (h - 1)` for a solid `w x h`
  rectangle, computed here by Moore boundary tracing; for the axis-aligned
  rectangle contours built by `merge_nearby_contours` it is the polygon
  area `(max_x - min_x) * (max_y - min_y)`.
* Wall-clock times and learning rates are rationals; machine floats of the
  source carry exactly representable small values at every comparison the
  claims touch.
* The grayscale conversion plus Gaussian blur of `preprocess_frame` is a
  pure function of the incoming frame for a fixed configuration, so it is
  carried as an explicit function parameter `pre : F → Img` on an abstract
  frame type `F`.
-/

/-- A grayscale image: dimensions plus a total pixel function
(8-bit samples modelled as `Nat`). -/
structure Img where
  w : Nat
  h : Nat
  pix : Nat → Nat → Nat

/-- A float-valued image, used for the background accumulator
(`self.background_frame`, a float32 array in the source). -/
structure QImg where
  w : Nat
  h : Nat
  pix : Nat → Nat → ℚ

/-- `current_frame.copy().astype(np.float32)`: the integer image reread as
a float image. -/
def toQImg (m : Img) : QImg :=
  ⟨m.w, m.h, fun x y => (m.pix x y : ℚ)⟩

/-- Pointwise absolute difference `|a - b|` on `Nat`. -/
def natAbsDiff (a b : Nat) : Nat := max a b - min a b

/-- `cv2.absdiff(prev, cur)`: pointwise absolute difference; dimensions are
those of the first operand (the source only ever diffs same-sized frames). -/
def absdiffImg (a b : Img) : Img :=
  ⟨a.w, a.h, fun x y => natAbsDiff (a.pix x y) (b.pix x y)⟩

/-- `cv2.threshold(diff, thr, 255, cv2.THRESH_BINARY)`: a pixel becomes 255
iff it strictly exceeds the threshold, else 0. -/
def thresholdImg (m : Img) (thr : Nat) : Img :=
  ⟨m.w, m.h, fun x y => if thr < m.pix x y then 255 else 0⟩

/-- The difference stage of `detect_motion_enhanced` (lines 157-164):
absolute frame difference followed by binary thresholding at the current
effective threshold. -/
def diffMask (prev cur : Img) (thr : Nat) : Img :=
  thresholdImg (absdiffImg prev cur) thr

/-- Row-major list of all pixel positions of a `w × h` image. -/
def allPositions (w h : Nat) : List (Nat × Nat) :=
  ((List.range h).map (fun y => (List.range w).map (fun x => (x, y)))).flatten

/-- `np.mean` of an image (sum of samples over the pixel count; the
zero-area case, NaN in NumPy, is mapped to 0 by rational division). -/
def meanImg (m : Img) : ℚ :=
  (((allPositions m.w m.h).map (fun p => (m.pix p.1 p.2 : ℚ))).sum) / ((m.w * m.h : Nat) : ℚ)

/-- The in-bounds positions holding a nonzero pixel. -/
def foregroundPositions (m : Img) : List (Nat × Nat) :=
  (allPositions m.w m.h).filter (fun p => decide (m.pix p.1 p.2 ≠ 0))

/-- Number of pixels marked "changed" in a binary mask. -/
def countChanged (m : Img) : Nat :=
  (foregroundPositions m).length

/-! ### Morphology (`cv2.erode` / `cv2.dilate` with an all-ones square kernel) -/

/-- The `k × k` grid of kernel-index offsets. -/
def windowOffsets (k : Nat) : List (Nat × Nat) :=
  ((List.range k).map (fun i => (List.range k).map (fun j => (i, j)))).flatten

/-- Pixel lookup at possibly out-of-range integer coordinates, with a
constant border value (OpenCV's border handling for morphology:
effectively 255 for erosion, 0 for dilation on binary images). -/
def pixAtI (m : Img) (border : Nat) (x y : Int) : Nat :=
  if 0 ≤ x ∧ x < (m.w : Int) ∧ 0 ≤ y ∧ y < (m.h : Int) then
    m.pix x.toNat y.toNat
  else border

/-- The pixel values under the `k × k` window anchored at the kernel
center `(k / 2, k / 2)` over position `(x, y)`. -/
def windowVals (m : Img) (k border : Nat) (x y : Nat) : List Nat :=
  (windowOffsets k).map
    (fun d => pixAtI m border ((x : Int) + d.1 - (k / 2 : Nat)) ((y : Int) + d.2 - (k / 2 : Nat)))

/-- `cv2.dilate` with an all-ones `k × k` kernel: window maximum. -/
def dilateImg (m : Img) (k : Nat) : Img :=
  ⟨m.w, m.h, fun x y => (windowVals m k 0 x y).foldl max 0⟩

/-- `cv2.erode` with an all-ones `k × k` kernel: window minimum. -/
def erodeImg (m : Img) (k : Nat) : Img :=
  ⟨m.w, m.h, fun x y => (windowVals m k 255 x y).foldl min 255⟩

/-- `cv2.morphologyEx(..., cv2.MORPH_OPEN, kernel)`: erosion then dilation. -/
def morphOpen (m : Img) (k : Nat) : Img := dilateImg (erodeImg m k) k

/-- `cv2.morphologyEx(..., cv2.MORPH_CLOSE, kernel)`: dilation then erosion. -/
def morphClose (m : Img) (k : Nat) : Img := erodeImg (dilateImg m k) k

/-- The morphology chain of `detect_motion_enhanced` (lines 166-176):
opening, closing, then one extra dilation pass. -/
def morphPipeline (k : Nat) (m : Img) : Img :=
  dilateImg (morphClose (morphOpen m k) k) k

/-! ### Contours (`cv2.findContours` / `cv2.boundingRect` / `cv2.contourArea`) -/

/-- A contour as the pipeline consumes it: the fields `x, y, w, h` are what
`cv2.boundingRect` returns and `area` is what `cv2.contourArea` returns. -/
structure Contour where
  x : Nat
  y : Nat
  w : Nat
  h : Nat
  area : Nat
deriving DecidableEq

/-- 8-connectivity of two pixel positions (`cv2.findContours` treats
diagonal foreground neighbours as connected). -/
def adjacent8 (p q : Nat × Nat) : Bool :=
  decide (natAbsDiff p.1 q.1 ≤ 1) && decide (natAbsDiff p.2 q.2 ≤ 1)

/-- Add one foreground pixel to a partition into connected components,
fusing every component the pixel touches. -/
def addPixel (comps : List (List (Nat × Nat))) (p : Nat × Nat) : List (List (Nat × Nat)) :=
  let parts := comps.partition (fun comp => comp.any (fun q => adjacent8 p q))
  (p :: parts.1.flatten) :: parts.2

/-- The 8-connected components of a list of foreground pixels. -/
def components (ps : List (Nat × Nat)) : List (List (Nat × Nat)) :=
  ps.foldl addPixel []

/-! #### `cv2.contourArea`: Green-formula area of the traced outer boundary

The border following of `cv2.findContours` walks the boundary pixels of a
component (Moore neighbourhood, clockwise in image coordinates with `y`
growing downward), and `cv2.contourArea` is the shoelace (Green-formula)
area of that polygon of pixel centers - which is 0 for one-pixel-wide
components and `(w - 1) * (h - 1)` for a solid `w x h` rectangle, not the
foreground pixel count. -/

/-- The 8 Moore directions in clockwise order, starting East
(image coordinates: `y` grows downward). -/
def dirs : List (Int × Int) := [(1, 0), (1, 1), (0, 1), (-1, 1), (-1, 0), (-1, -1), (0, -1), (1, -1)]

/-- Direction number modulo 8. -/
def dirAt (d : Nat) : Int × Int := dirs.getD (d % 8) (1, 0)

/-- First foreground neighbour of `p`, scanning the 8 directions clockwise
from direction `s`; returns the direction taken and the neighbour. -/
def findNext (inC : Int × Int → Bool) (p : Int × Int) (s : Nat) : Option (Nat × (Int × Int)) :=
  (List.range 8).findSome? (fun k =>
    let d := (s + k) % 8
    let q := (p.1 + (dirAt d).1, p.2 + (dirAt d).2)
    if inC q then some (d, q) else none)

/-- Moore boundary following from pixel `p` (entered by move direction
`dprev`): scan clockwise from the backtrack position, stopping once the
start pixel is re-entered about to repeat the first move (Jacob's
criterion); the fuel bound only guarantees totality. -/
def traceLoop (inC : Int × Int → Bool) (s : Int × Int) (d0 : Nat) (q0 : Int × Int) :
    Nat → (Int × Int) → Nat → List (Int × Int)
  | 0, _, _ => []
  | fuel + 1, p, dprev =>
    let nxt := findNext inC p ((dprev + 6) % 8)
    if p = s ∧ nxt = some (d0, q0) then []
    else
      p :: match nxt with
        | none => []
        | some (d, q) => traceLoop inC s d0 q0 fuel q d

/-- The uppermost-leftmost pixel of a component (minimal row, then minimal
column), where OpenCV's raster scan first meets the component. -/
def startPixel (comp : List (Nat × Nat)) : Option (Nat × Nat) :=
  match comp with
  | [] => none
  | p :: ps =>
    some (ps.foldl (fun a q => if q.2 < a.2 ∨ (q.2 = a.2 ∧ q.1 < a.1) then q else a) p)

/-- The traced outer boundary of a component: the closed sequence of
boundary pixel centers that `cv2.findContours` returns for it. -/
def mooreTrace (comp : List (Nat × Nat)) : List (Int × Int) :=
  match startPixel comp with
  | none => []
  | some s0 =>
    let inC : Int × Int → Bool := fun q =>
      decide (0 ≤ q.1) && decide (0 ≤ q.2) && comp.contains (q.1.toNat, q.2.toNat)
    let s : Int × Int := ((s0.1 : Int), (s0.2 : Int))
    match findNext inC s 4 with
    | none => [s]
    | some (d0, q0) => s :: traceLoop inC s d0 q0 (4 * comp.length + 8) q0 d0

/-- Twice the signed shoelace sum of a closed polygon (`first` closes the
cycle; `p` is the point preceding the remaining list). -/
def shoelace2 : List (Int × Int) → (Int × Int) → (Int × Int) → Int
  | [], first, last => last.1 * first.2 - first.1 * last.2
  | q :: rest, first, p => (p.1 * q.2 - q.1 * p.2) + shoelace2 rest first q

/-- `cv2.contourArea` of a component's outer contour: the absolute
Green-formula area of the traced boundary polygon (OpenCV truncates the
double to an integer only in the callers' comparisons; the value is
integral on every contour this development evaluates). -/
def contourAreaOf (comp : List (Nat × Nat)) : Nat :=
  match mooreTrace comp with
  | [] => 0
  | p :: rest => (shoelace2 rest p p).natAbs / 2

/-- Bounding box plus traced-boundary area of one component:
`cv2.boundingRect` and `cv2.contourArea` of its outer contour. -/
def contourOfComp (comp : List (Nat × Nat)) : Contour :=
  match comp with
  | [] => ⟨0, 0, 0, 0, 0⟩
  | p :: ps =>
    let minX := ps.foldl (fun a q => min a q.1) p.1
    let minY := ps.foldl (fun a q => min a q.2) p.2
    let maxX := ps.foldl (fun a q => max a q.1) p.1
    let maxY := ps.foldl (fun a q => max a q.2) p.2
    ⟨minX, minY, maxX - minX + 1, maxY - minY + 1, contourAreaOf comp⟩

/-- `cv2.findContours(mask, cv2.RETR_EXTERNAL, ...)`: one outer contour
per connected foreground component.  `RETR_EXTERNAL` additionally
suppresses components nested inside holes of other components; the model
keeps them, a superset of the code's contours.  This is inert for every
statement proved here: the all-zero masks have no components at all, the
concrete counterexample masks contain no nesting, and the band theorem
quantifies over each returned region individually with merging disabled. -/
def findContours (m : Img) : List Contour :=
  (components (foregroundPositions m)).map contourOfComp

/-! ### Configuration (`config.py`) -/

/-- The tunable parameters consumed by the pipeline (the module-level
constants of `config.py`). -/
structure Config where
  motionThreshold : Nat
  minContourArea : Nat
  maxContourArea : Nat
  gaussianBlurSize : Nat
  morphologyKernelSize : Nat
  persistenceFrames : Nat
  backgroundUpdateRate : ℚ
  mergeNearbyContours : Bool
  contourMergeDistance : Nat
  minHumanArea : Nat
  maxDetectionObjects : Nat
  alertCooldown : ℚ
  autoResetBackground : Bool
  resetBackgroundInterval : ℚ
  adaptiveThreshold : Bool

/-- The values shipped in `config.py`. -/
def defaultConfig : Config where
  motionThreshold := 35
  minContourArea := 800
  maxContourArea := 50000
  gaussianBlurSize := 21
  morphologyKernelSize := 5
  persistenceFrames := 2
  backgroundUpdateRate := 5 / 1000
  mergeNearbyContours := true
  contourMergeDistance := 100
  minHumanArea := 3000
  maxDetectionObjects := 5
  alertCooldown := 3
  autoResetBackground := true
  resetBackgroundInterval := 300
  adaptiveThreshold := true

/-! ### Contour merging (`merge_nearby_contours`, lines 91-148) -/

/-- The merge test of lines 120-130: centers of the two original bounding
boxes closer than `CONTOUR_MERGE_DISTANCE`, or the boxes overlap.  The
source compares `np.sqrt(dx**2 + dy**2) < dist`; for the integer inputs
involved the correctly-rounded square root satisfies
`sqrt(s) < d ↔ s < d^2`, so the comparison is embedded in squared form. -/
def mergeCond (mergeDist : Nat) (c1 c2 : Contour) : Bool :=
  let c1x := c1.x + c1.w / 2
  let c1y := c1.y + c1.h / 2
  let c2x := c2.x + c2.w / 2
  let c2y := c2.y + c2.h / 2
  let distSq := natAbsDiff c1x c2x ^ 2 + natAbsDiff c1y c2y ^ 2
  let overlapX := min (c1.x + c1.w) (c2.x + c2.w) - max c1.x c2.x
  let overlapY := min (c1.y + c1.h) (c2.y + c2.h) - max c1.y c2.y
  decide (distSq < mergeDist ^ 2) || (decide (0 < overlapX) && decide (0 < overlapY))

/-- The 4-point axis-aligned rectangle contour built at lines 140-145,
with its `cv2.boundingRect` (spanning `maxX - minX + 1` columns) and its
`cv2.contourArea` (the polygon area `(maxX - minX) * (maxY - minY)`). -/
def rectContour (minX minY maxX maxY : Nat) : Contour where
  x := minX
  y := minY
  w := maxX - minX + 1
  h := maxY - minY + 1
  area := (maxX - minX) * (maxY - minY)

/-- Mutable state of the outer merge loop body: the `used` flags, the
growing bounding box, and the `merged_contours` list. -/
structure MergeState where
  used : List Bool
  minX : Nat
  minY : Nat
  maxX : Nat
  maxY : Nat
  merged : List Contour

/-- One iteration of the inner `for j` loop (lines 116-136): an unused
contour close to or overlapping the current one extends the box and is
marked used. -/
def mergeInner (mergeDist : Nat) (cs : List Contour) (c1 : Contour)
    (s : MergeState) (j : Nat) : MergeState :=
  if s.used.getD j true then s
  else
    match cs.get? j with
    | none => s
    | some c2 =>
      if mergeCond mergeDist c1 c2 then
        { used := s.used.set j true
          minX := min s.minX c2.x
          minY := min s.minY c2.y
          maxX := max s.maxX (c2.x + c2.w)
          maxY := max s.maxY (c2.y + c2.h)
          merged := s.merged ++ [c2] }
      else s

/-- One iteration of the outer `for i` loop (lines 105-146): group the
contours merging into contour `i` and keep the enclosing rectangle when
the group has more than one member or contour `i` alone has area strictly
above `MIN_CONTOUR_AREA`. -/
def mergeOuter (mergeDist minArea : Nat) (cs : List Contour)
    (s : List Bool × List Contour) (i : Nat) : List Bool × List Contour :=
  if s.1.getD i true then s
  else
    match cs.get? i with
    | none => s
    | some c1 =>
      let start : MergeState :=
        { used := s.1.set i true
          minX := c1.x
          minY := c1.y
          maxX := c1.x + c1.w
          maxY := c1.y + c1.h
          merged := [c1] }
      let fin := (List.range cs.length).foldl (mergeInner mergeDist cs c1) start
      if 1 < fin.merged.length || decide (minArea < c1.area) then
        (fin.used, s.2 ++ [rectContour fin.minX fin.minY fin.maxX fin.maxY])
      else
        (fin.used, s.2)

/-- `merge_nearby_contours` (lines 91-148): identity when merging is
disabled or at most one contour is present, otherwise the greedy
rectangle-union pass. -/
def mergeNearby (cfg : Config) (cs : List Contour) : List Contour :=
  if !cfg.mergeNearbyContours || cs.length ≤ 1 then cs
  else
    ((List.range cs.length).foldl
      (mergeOuter cfg.contourMergeDistance cfg.minContourArea cs)
      (List.replicate cs.length false, [])).2

/-! ### Area filter and object cap (lines 181-194) -/

/-- The area filter of lines 181-186: keep contours with
`MIN_CONTOUR_AREA <= area <= MAX_CONTOUR_AREA`. -/
def filterByArea (cfg : Config) (cs : List Contour) : List Contour :=
  cs.filter (fun c => decide (cfg.minContourArea ≤ c.area) && decide (c.area ≤ cfg.maxContourArea))

/-- Stable insertion into a list sorted by descending area (a contour of
equal area goes after the existing ones, as Python's stable sort keeps
input order on ties). -/
def insertDesc (c : Contour) : List Contour → List Contour
  | [] => [c]
  | d :: ds => if c.area ≤ d.area then d :: insertDesc c ds else c :: d :: ds

/-- `sorted(contours, key=cv2.contourArea, reverse=True)`: stable
descending sort by area. -/
def sortByAreaDesc (cs : List Contour) : List Contour :=
  cs.foldl (fun acc c => insertDesc c acc) []

/-- The cap of lines 191-194: when more than `MAX_DETECTION_OBJECTS`
contours survive, keep only the largest ones. -/
def capContours (cfg : Config) (cs : List Contour) : List Contour :=
  if cfg.maxDetectionObjects < cs.length then
    (sortByAreaDesc cs).take cfg.maxDetectionObjects
  else cs

/-- The full region-extraction step applied to the binary difference mask:
morphological cleanup, contour extraction, area filtering, optional
merging, optional cap (lines 166-194). -/
def regionExtract (cfg : Config) (mask : Img) : List Contour :=
  capContours cfg
    (mergeNearby cfg
      (filterByArea cfg
        (findContours (morphPipeline cfg.morphologyKernelSize mask))))

/-! ### Motion persistence (lines 199-209) -/

/-- Number of `true` entries of a boolean history (`sum(self.motion_history)`). -/
def countTrue (l : List Bool) : Nat := (l.filter id).length

/-- The history update of lines 200-202: append the new observation and
drop the oldest entry once the window length exceeds
`MOTION_PERSISTENCE_FRAMES`. -/
def stepHist (n : Nat) (hist : List Bool) (b : Bool) : List Bool :=
  let h1 := hist ++ [b]
  if n < h1.length then h1.drop 1 else h1

/-- The persistence vote of lines 204-209: motion is persistent once the
window is full and at least `MOTION_PERSISTENCE_FRAMES - 1` entries are
`true`. -/
def persistentCheck (n : Nat) (hist : List Bool) : Bool :=
  decide (n ≤ hist.length) && decide (n - 1 ≤ countTrue hist)

/-- One call of the persistence filter: update the history, then vote. -/
def observePersistence (n : Nat) (hist : List Bool) (b : Bool) : Bool :=
  persistentCheck n (stepHist n hist b)

/-- The history reached after feeding a whole observation sequence into an
initially empty window. -/
def histAfter (n : Nat) (xs : List Bool) : List Bool :=
  xs.foldl (stepHist n) []

/-- The `n` most recent entries of a list (all of it when shorter). -/
def lastN (l : List Bool) (n : Nat) : List Bool :=
  l.drop (l.length - n)

/-! ### Detector state and background model -/

/-- The mutable fields of `HumanOptimizedMotionDetector` that the pipeline
reads or writes (constructor values in `__init__`). -/
structure DState where
  prevFrame : Option Img
  backgroundFrame : Option QImg
  motionHistory : List Bool
  consecutiveMotionFrames : Nat
  totalDetections : Nat
  humanDetections : Nat
  averageFrameDiff : ℚ
  currentThreshold : Nat
  lightingBaseline : ℚ
  frameCount : Nat
  lastMotionTime : ℚ
  lastBackgroundReset : ℚ

/-- The constructor state: no frames seen, empty history, threshold at the
base value, `last_background_reset` stamped with the construction time. -/
def initState (cfg : Config) (t0 : ℚ) : DState where
  prevFrame := none
  backgroundFrame := none
  motionHistory := []
  consecutiveMotionFrames := 0
  totalDetections := 0
  humanDetections := 0
  averageFrameDiff := 0
  currentThreshold := cfg.motionThreshold
  lightingBaseline := 0
  frameCount := 0
  lastMotionTime := 0
  lastBackgroundReset := t0

/-- `update_background` (lines 80-89): seed the estimate directly from the
frame on first use, otherwise blend by `cv2.accumulateWeighted`:
`background = background * (1 - rate) + frame * rate`. -/
def updateBackground (rate : ℚ) (bg : Option QImg) (cur : Img) : QImg :=
  match bg with
  | none => toQImg cur
  | some b => ⟨b.w, b.h, fun x y => b.pix x y * (1 - rate) + (cur.pix x y : ℚ) * rate⟩

/-- `auto_reset_background` (lines 228-236): once the reset interval has
elapsed, clear background, previous frame and motion history. -/
def autoResetBackground (cfg : Config) (st : DState) (t : ℚ) : DState :=
  if cfg.autoResetBackground && decide (cfg.resetBackgroundInterval < t - st.lastBackgroundReset) then
    { st with backgroundFrame := none
              prevFrame := none
              motionHistory := []
              lastBackgroundReset := t }
  else st

/-! ### Preprocessing (`preprocess_frame`, lines 57-78) -/

/-- `preprocess_frame`: grayscale conversion plus Gaussian blur (the pure
function `pre`), and every 30th frame a refresh of the lighting baseline
with the adaptive-threshold adjustment: below 50 the base threshold gains
15, above 200 it gains 10, in between it is used unmodified. -/
def preprocessFrame (cfg : Config) {F : Type} (pre : F → Img) (st : DState) (frame : F) :
    Img × DState :=
  let blurred := pre frame
  if st.frameCount % 30 = 0 then
    let baseline := meanImg blurred
    let thr :=
      if cfg.adaptiveThreshold then
        if baseline < 50 then cfg.motionThreshold + 15
        else if 200 < baseline then cfg.motionThreshold + 10
        else cfg.motionThreshold
      else st.currentThreshold
    (blurred, { st with lightingBaseline := baseline, currentThreshold := thr })
  else (blurred, st)

/-! ### Enhanced motion detection (`detect_motion_enhanced`, lines 150-226) -/

/-- `detect_motion_enhanced`: on the first frame store it and seed the
background, returning "not ready"; otherwise difference, threshold,
morphology, region extraction, persistence vote, consecutive-motion
counter, and conditional background update. -/
def detectMotionEnhanced (cfg : Config) (st : DState) (cur : Img) :
    DState × (Option Img × List Contour × Bool) :=
  match st.prevFrame with
  | none =>
    ({ st with
        prevFrame := some cur
        backgroundFrame := some (updateBackground cfg.backgroundUpdateRate st.backgroundFrame cur) },
     (none, [], false))
  | some prev =>
    let avgDiff := meanImg (absdiffImg prev cur)
    let mask := diffMask prev cur st.currentThreshold
    let morphed := morphPipeline cfg.morphologyKernelSize mask
    let contours := regionExtract cfg mask
    let hasMotion := decide (0 < contours.length)
    let hist := stepHist cfg.persistenceFrames st.motionHistory hasMotion
    let persistent := persistentCheck cfg.persistenceFrames hist
    let consec := if hasMotion then st.consecutiveMotionFrames + 1 else 0
    let bg :=
      if !hasMotion then
        some (updateBackground cfg.backgroundUpdateRate st.backgroundFrame cur)
      else if consec < 10 then
        some (updateBackground (1 / 1000) st.backgroundFrame cur)
      else st.backgroundFrame
    ({ st with
        prevFrame := some cur
        backgroundFrame := bg
        motionHistory := hist
        consecutiveMotionFrames := consec
        averageFrameDiff := avgDiff },
     (some morphed, contours, persistent))

/-! ### Event emission and the per-tick orchestrator -/

/-- The cooldown gate of `process_motion_detection` (lines 414-416): an
event fires iff motion is persistent and the elapsed time since
`last_motion_time` strictly exceeds `MOTION_ALERT_COOLDOWN`; firing
restamps `last_motion_time` with the current time. -/
def alertGate (cooldown lastTime t : ℚ) (persistent : Bool) : ℚ × Bool :=
  if persistent && decide (cooldown < t - lastTime) then (t, true) else (lastTime, false)

/-- An emitted motion event: the regions, their total area, the effective
threshold, the frame index and the timestamp of the tick. -/
structure MotionEvent where
  regions : List Contour
  totalArea : Nat
  threshold : Nat
  frameIndex : Nat
  timestamp : ℚ
deriving DecidableEq

/-- `process_motion_detection` (lines 392-459) restricted to the detection
core: bump the frame counter, run the periodic reset, preprocess, detect,
and pass the persistence verdict through the cooldown gate, emitting a
`MotionEvent` and updating the detection counters when it opens. -/
def processTick (cfg : Config) {F : Type} (pre : F → Img) (st : DState) (t : ℚ) (frame : F) :
    DState × Option MotionEvent :=
  let st1 := { st with frameCount := st.frameCount + 1 }
  let st2 := autoResetBackground cfg st1 t
  let p := preprocessFrame cfg pre st2 frame
  let d := detectMotionEnhanced cfg p.2 p.1
  let st4 := d.1
  let contours := d.2.2.1
  let persistent := d.2.2.2
  let g := alertGate cfg.alertCooldown st4.lastMotionTime t persistent
  if g.2 then
    let humanCount := (contours.filter (fun c => decide (cfg.minHumanArea ≤ c.area))).length
    let totalArea := (contours.map (fun c => c.area)).sum
    ({ st4 with
        lastMotionTime := g.1
        totalDetections := st4.totalDetections + 1
        humanDetections := st4.humanDetections + (if 0 < humanCount then 1 else 0) },
     some { regions := contours
            totalArea := totalArea
            threshold := st4.currentThreshold
            frameIndex := st4.frameCount
            timestamp := t })
  else ({ st4 with lastMotionTime := g.1 }, none)

/-- Run the pipeline over a timed frame sequence, collecting the emitted
events in order. -/
def runTicks (cfg : Config) {F : Type} (pre : F → Img) :
    DState → List (ℚ × F) → DState × List MotionEvent
  | st, [] => (st, [])
  | st, (t, fr) :: rest =>
    let r := processTick cfg pre st t fr
    let rr := runTicks cfg pre r.1 rest
    (rr.1, r.2.toList ++ rr.2)

/-! ### The tuner's blur-size configuration callback (`motion_tuner.py`) -/

/-- `update_blur` (motion_tuner.py lines 72-75): the configured Gaussian
blur size is forced odd, an even value being bumped to the next odd one,
before `process_frame` applies it. -/
def updateBlur (val : Nat) : Nat :=
  if val % 2 = 1 then val else val + 1

/-! ### Basic facts about positions and masks -/

lemma mem_allPositions {w h : Nat} {p : Nat × Nat} (hp : p ∈ allPositions w h) :
    p.1 < w ∧ p.2 < h := by
  simp only [allPositions, List.mem_flatten, List.mem_map] at hp
  obtain ⟨l, ⟨y, hy, rfl⟩, hpl⟩ := hp
  obtain ⟨x, hx, rfl⟩ := List.mem_map.mp hpl
  exact ⟨List.mem_range.mp hx, List.mem_range.mp hy⟩

/-- "In-bounds zero": every pixel inside the image dimensions is 0. -/
def IBZ (m : Img) : Prop := ∀ x y, x < m.w → y < m.h → m.pix x y = 0

lemma foregroundPositions_nil {m : Img} (hm : IBZ m) : foregroundPositions m = [] := by
  unfold foregroundPositions
  rw [List.filter_eq_nil_iff]
  intro p hp
  obtain ⟨hx, hy⟩ := mem_allPositions hp
  simp [hm p.1 p.2 hx hy]

lemma countChanged_eq_zero {m : Img} (hm : IBZ m) : countChanged m = 0 := by
  simp [countChanged, foregroundPositions_nil hm]

/-! ### C8: blur kernel size forced odd -/

/-- C8: for every configured smoothing kernel size the applied size is odd:
an even configured value is bumped to the next odd one by the tuner's
`update_blur` callback before `process_frame` applies it, an odd value is
kept, and the fixed `GAUSSIAN_BLUR_SIZE` of `config.py` is itself odd. -/
theorem blur_size_forced_odd (val : Nat) :
    updateBlur val % 2 = 1
    ∧ (val % 2 = 0 → updateBlur val = val + 1)
    ∧ (val % 2 = 1 → updateBlur val = val)
    ∧ defaultConfig.gaussianBlurSize % 2 = 1 := by
  unfold updateBlur
  rcases Nat.mod_two_eq_zero_or_one val with h | h <;>
    · simp [h, defaultConfig]
      try omega

/-- Witness for C8 at the concrete even size 4: it is applied as 5. -/
theorem blur_size_forced_odd_witness : updateBlur 4 = 4 + 1 ∧ updateBlur 4 % 2 = 1 :=
  ⟨(blur_size_forced_odd 4).2.1 (by decide), (blur_size_forced_odd 4).1⟩

/-! ### C3: cooldown gating of event emission -/

/-- C3: an event is emitted iff motion is persistent and the elapsed time
since the last emitted event strictly exceeds the cooldown; the timer is
restamped exactly on emission; with a cooldown of 2 time-units, of two
qualifying persistent ticks 0.5 apart only the first emits. -/
theorem alertGate_cooldown_spec (cd last t : ℚ) (p : Bool) (t₁ : ℚ) (h : 2 < t₁ - last) :
    ((alertGate cd last t p).2 = true ↔ (p = true ∧ cd < t - last))
    ∧ ((alertGate cd last t p).1 = if (alertGate cd last t p).2 then t else last)
    ∧ ((alertGate 2 last t₁ true).2 = true
        ∧ (alertGate 2 (alertGate 2 last t₁ true).1 (t₁ + 1 / 2) true).2 = false) := by
  refine ⟨?_, ?_, ?_⟩
  · by_cases hp : p = true <;> by_cases hc : cd < t - last <;>
      simp [alertGate, hp, hc]
  · by_cases hp : p = true <;> by_cases hc : cd < t - last <;>
      simp [alertGate, hp, hc]
  · have h1 : alertGate 2 last t₁ true = (t₁, true) := by simp [alertGate, h]
    refine ⟨by simp [h1], ?_⟩
    rw [h1]
    have h2 : ¬ (2 : ℚ) < t₁ + 1 / 2 - t₁ := by ring_nf; norm_num
    simp [alertGate, h2]
    norm_num

/-- Witness for C3: persistent ticks at times 10 and 10.5 with the timer
last stamped at 0 and cooldown 2: only the first emits. -/
theorem alertGate_cooldown_spec_witness :
    (alertGate 2 0 10 true).2 = true
    ∧ (alertGate 2 (alertGate 2 0 10 true).1 (10 + 1 / 2) true).2 = false :=
  (alertGate_cooldown_spec 2 0 10 true 10 (by norm_num)).2.2

/-! ### C6: the difference stage -/

/-- C6: a pixel of the binary difference mask is marked "changed" (255)
iff the absolute difference of the two frames at that pixel strictly
exceeds the effective threshold, and unmarked (0) iff it is at most the
threshold; consequently a frame pair differing by at most the threshold
everywhere yields zero changed pixels. -/
theorem diff_stage_threshold_spec (prev cur : Img) (thr : Nat) :
    (∀ x y,
      ((diffMask prev cur thr).pix x y = 255
          ↔ thr < natAbsDiff (prev.pix x y) (cur.pix x y))
        ∧ ((diffMask prev cur thr).pix x y = 0
          ↔ natAbsDiff (prev.pix x y) (cur.pix x y) ≤ thr))
    ∧ ((∀ x y, x < prev.w → y < prev.h →
          natAbsDiff (prev.pix x y) (cur.pix x y) ≤ thr) →
        countChanged (diffMask prev cur thr) = 0) := by
  constructor
  · intro x y
    constructor <;>
      · simp only [diffMask, thresholdImg, absdiffImg]
        split <;> simp <;> omega
  · intro hsmall
    apply countChanged_eq_zero
    intro x y hx hy
    simp only [diffMask, thresholdImg, absdiffImg] at hx hy ⊢
    rw [if_neg (by exact Nat.not_lt.mpr (hsmall x y hx hy))]

/-- Witness for C6: identical 2-by-2 frames at threshold 35 yield zero
changed pixels. -/
theorem diff_stage_threshold_spec_witness :
    countChanged (diffMask ⟨2, 2, fun _ _ => 9⟩ ⟨2, 2, fun _ _ => 9⟩ 35) = 0 :=
  (diff_stage_threshold_spec ⟨2, 2, fun _ _ => 9⟩ ⟨2, 2, fun _ _ => 9⟩ 35).2
    (by intro x y _ _; simp [natAbsDiff])

/-! ### C7: first tick -/

lemma detect_first (cfg : Config) (st : DState) (cur : Img) (hprev : st.prevFrame = none) :
    (detectMotionEnhanced cfg st cur).2 = (none, [], false)
    ∧ (detectMotionEnhanced cfg st cur).1.prevFrame = some cur
    ∧ (detectMotionEnhanced cfg st cur).1.motionHistory = st.motionHistory := by
  simp [detectMotionEnhanced, hprev]

/-- C7: on the very first tick (no previous frame stored) the difference
stage returns no mask, no regions and no motion decision, and the
background model is seeded directly from the frame with no blending. -/
theorem first_tick_not_ready_and_seed (cfg : Config) (st : DState) (cur : Img)
    (hprev : st.prevFrame = none) (hbg : st.backgroundFrame = none) :
    (detectMotionEnhanced cfg st cur).2 = (none, [], false)
    ∧ (detectMotionEnhanced cfg st cur).1.prevFrame = some cur
    ∧ (detectMotionEnhanced cfg st cur).1.backgroundFrame = some (toQImg cur) := by
  refine ⟨(detect_first cfg st cur hprev).1, (detect_first cfg st cur hprev).2.1, ?_⟩
  simp [detectMotionEnhanced, hprev, updateBackground, hbg]

/-- Witness for C7: the fresh detector state on a concrete 1-by-1 frame. -/
theorem first_tick_not_ready_and_seed_witness :
    (detectMotionEnhanced defaultConfig (initState defaultConfig 0) ⟨1, 1, fun _ _ => 7⟩).2
        = (none, [], false)
    ∧ (detectMotionEnhanced defaultConfig (initState defaultConfig 0)
        ⟨1, 1, fun _ _ => 7⟩).1.prevFrame = some ⟨1, 1, fun _ _ => 7⟩
    ∧ (detectMotionEnhanced defaultConfig (initState defaultConfig 0)
        ⟨1, 1, fun _ _ => 7⟩).1.backgroundFrame = some (toQImg ⟨1, 1, fun _ _ => 7⟩) :=
  first_tick_not_ready_and_seed defaultConfig (initState defaultConfig 0)
    ⟨1, 1, fun _ _ => 7⟩ rfl rfl

/-! ### The persistence window: trailing-suffix characterization -/

lemma stepHist_lastN (n : Nat) (xs : List Bool) (b : Bool) :
    stepHist n (lastN xs n) b = lastN (xs ++ [b]) n := by
  have hdrop : lastN xs n ++ [b] = (xs ++ [b]).drop (xs.length - n) :=
    (List.drop_append_of_le_length (Nat.sub_le _ _)).symm
  have hlen : (lastN xs n ++ [b]).length = xs.length + 1 - (xs.length - n) := by
    simp [lastN, List.length_append, List.length_drop]
    omega
  simp only [stepHist, lastN]
  by_cases hc : n < (xs.drop (xs.length - n) ++ [b]).length
  · rw [if_pos hc]
    have hle : n ≤ xs.length := by
      by_contra hgt
      push_neg at hgt
      have h0 : xs.length - n = 0 := by omega
      simp [h0, List.length_append] at hc
      omega
    calc (xs.drop (xs.length - n) ++ [b]).drop 1
        = ((xs ++ [b]).drop (xs.length - n)).drop 1 := by
          rw [show xs.drop (xs.length - n) ++ [b] = (xs ++ [b]).drop (xs.length - n) from hdrop]
      _ = (xs ++ [b]).drop ((xs ++ [b]).length - n) := by
          rw [List.drop_drop]
          congr 1
          simp [List.length_append]
          omega
  · rw [if_neg hc]
    have hgt : xs.length < n := by
      simp [List.length_append, List.length_drop] at hc
      omega
    have h0 : xs.length - n = 0 := by omega
    have h1 : xs.length + 1 - n = 0 := by omega
    simp [h0, h1]

lemma histAfter_eq_lastN (n : Nat) (xs : List Bool) : histAfter n xs = lastN xs n := by
  induction xs using List.reverseRecOn with
  | nil => simp [histAfter, lastN]
  | append_singleton xs b ih =>
    have : histAfter n (xs ++ [b]) = stepHist n (histAfter n xs) b := by
      simp [histAfter, List.foldl_append]
    rw [this, ih, stepHist_lastN]

/-! ### C2: the persistence filter contract -/

/-- C2: fed any boolean observation sequence from a cold start, the
persistence filter answers false on each of the first
`persistenceFrames - 1` observations regardless of their values, and on
every later observation answers true iff at least `persistenceFrames - 1`
of the most recent `persistenceFrames` observations were true. -/
theorem persistence_filter_spec (n : Nat) (xs : List Bool) (b : Bool) :
    observePersistence n (histAfter n xs) b =
      if xs.length + 1 < n then false
      else decide (n - 1 ≤ countTrue (lastN (xs ++ [b]) n)) := by
  rw [observePersistence, histAfter_eq_lastN, stepHist_lastN]
  have hlen : (lastN (xs ++ [b]) n).length = (xs.length + 1) - ((xs.length + 1) - n) := by
    simp [lastN, List.length_append, List.length_drop]
  unfold persistentCheck
  by_cases hc : xs.length + 1 < n
  · rw [if_pos hc]
    have hno : ¬ n ≤ (lastN (xs ++ [b]) n).length := by omega
    rw [decide_eq_false hno, Bool.false_and]
  · rw [if_neg hc]
    have hyes : n ≤ (lastN (xs ++ [b]) n).length := by omega
    rw [decide_eq_true hyes, Bool.true_and]

/-! ### C9: the motion-history window never outgrows the persistence window -/

lemma stepHist_length_le (n : Nat) (hist : List Bool) (b : Bool)
    (h : hist.length ≤ n) : (stepHist n hist b).length ≤ n := by
  simp only [stepHist]
  by_cases hc : n < (hist ++ [b]).length
  · rw [if_pos hc]
    simp [List.length_append]
    omega
  · rw [if_neg hc]
    simp [List.length_append] at hc ⊢
    omega

lemma preprocess_fields (cfg : Config) {F : Type} (pre : F → Img) (st : DState) (f : F) :
    (preprocessFrame cfg pre st f).1 = pre f
    ∧ (preprocessFrame cfg pre st f).2.prevFrame = st.prevFrame
    ∧ (preprocessFrame cfg pre st f).2.motionHistory = st.motionHistory := by
  unfold preprocessFrame
  split <;> simp

lemma autoReset_fields (cfg : Config) (st : DState) (t : ℚ) :
    ((autoResetBackground cfg st t).prevFrame = st.prevFrame
      ∧ (autoResetBackground cfg st t).motionHistory = st.motionHistory)
    ∨ ((autoResetBackground cfg st t).prevFrame = none
      ∧ (autoResetBackground cfg st t).motionHistory = []) := by
  unfold autoResetBackground
  split
  · right
    simp
  · left
    simp

lemma detect_motionHistory_le (cfg : Config) (st : DState) (cur : Img)
    (h : st.motionHistory.length ≤ cfg.persistenceFrames) :
    (detectMotionEnhanced cfg st cur).1.motionHistory.length ≤ cfg.persistenceFrames := by
  cases hp : st.prevFrame with
  | none =>
    simp only [detectMotionEnhanced, hp]
    exact h
  | some prev =>
    simp only [detectMotionEnhanced, hp]
    exact stepHist_length_le _ _ _ h

lemma processTick_motionHistory_eq (cfg : Config) {F : Type} (pre : F → Img)
    (st : DState) (t : ℚ) (fr : F) :
    (processTick cfg pre st t fr).1.motionHistory =
      (detectMotionEnhanced cfg
        (preprocessFrame cfg pre
          (autoResetBackground cfg { st with frameCount := st.frameCount + 1 } t) fr).2
        (preprocessFrame cfg pre
          (autoResetBackground cfg { st with frameCount := st.frameCount + 1 } t) fr).1).1.motionHistory := by
  simp only [processTick]
  split <;> rfl

lemma processTick_history_le (cfg : Config) {F : Type} (pre : F → Img)
    (st : DState) (t : ℚ) (fr : F)
    (h : st.motionHistory.length ≤ cfg.persistenceFrames) :
    (processTick cfg pre st t fr).1.motionHistory.length ≤ cfg.persistenceFrames := by
  rw [processTick_motionHistory_eq]
  apply detect_motionHistory_le
  rw [(preprocess_fields cfg pre _ fr).2.2]
  rcases autoReset_fields cfg { st with frameCount := st.frameCount + 1 } t with ⟨_, h2⟩ | ⟨_, h2⟩ <;>
    rw [h2] <;> simp [h]

lemma runTicks_history_le (cfg : Config) {F : Type} (pre : F → Img) :
    ∀ (inputs : List (ℚ × F)) (st : DState),
      st.motionHistory.length ≤ cfg.persistenceFrames →
      (runTicks cfg pre st inputs).1.motionHistory.length ≤ cfg.persistenceFrames := by
  intro inputs
  induction inputs with
  | nil =>
    intro st h
    simpa [runTicks] using h
  | cons q rest ih =>
    intro st h
    obtain ⟨t, fr⟩ := q
    simp only [runTicks]
    exact ih _ (processTick_history_le cfg pre st t fr h)

/-- C9: one history step keeps the window length at most the configured
persistence window, evicting the oldest entry when the window is full, and
along any run of the pipeline from the constructor state (including
through the periodic resets) the stored history never exceeds the window. -/
theorem motion_history_bounded (cfg : Config) {F : Type} (pre : F → Img) (t0 : ℚ)
    (inputs : List (ℚ × F)) (hist : List Bool) (b : Bool)
    (h : hist.length ≤ cfg.persistenceFrames) :
    (stepHist cfg.persistenceFrames hist b).length ≤ cfg.persistenceFrames
    ∧ (hist.length = cfg.persistenceFrames →
        stepHist cfg.persistenceFrames hist b = (hist ++ [b]).drop 1)
    ∧ (runTicks cfg pre (initState cfg t0) inputs).1.motionHistory.length
        ≤ cfg.persistenceFrames := by
  refine ⟨stepHist_length_le _ _ _ h, ?_, ?_⟩
  · intro heq
    simp only [stepHist]
    rw [if_pos]
    simp [List.length_append, heq]
  · exact runTicks_history_le cfg pre inputs (initState cfg t0) (by simp [initState])

/-- Witness for C9 at a full window of length 2 and a concrete empty run. -/
theorem motion_history_bounded_witness :
    (stepHist defaultConfig.persistenceFrames [true, false] true).length
        ≤ defaultConfig.persistenceFrames
    ∧ ([true, false].length = defaultConfig.persistenceFrames →
        stepHist defaultConfig.persistenceFrames [true, false] true
          = ([true, false] ++ [true]).drop 1)
    ∧ (runTicks defaultConfig (fun _ : Unit => ⟨1, 1, fun _ _ => 0⟩)
        (initState defaultConfig 0) []).1.motionHistory.length
        ≤ defaultConfig.persistenceFrames :=
  motion_history_bounded defaultConfig (fun _ : Unit => ⟨1, 1, fun _ _ => 0⟩) 0 []
    [true, false] true (by decide)

/-! ### C1: the area band and the merge pass -/

lemma mem_insertDesc {x c : Contour} : ∀ {l : List Contour}, x ∈ insertDesc c l → x = c ∨ x ∈ l := by
  intro l
  induction l with
  | nil =>
    intro hx
    simp [insertDesc] at hx
    exact Or.inl hx
  | cons d ds ih =>
    intro hx
    simp only [insertDesc] at hx
    split at hx
    · rcases List.mem_cons.mp hx with h | h
      · exact Or.inr (List.mem_cons.mpr (Or.inl h))
      · rcases ih h with h' | h'
        · exact Or.inl h'
        · exact Or.inr (List.mem_cons.mpr (Or.inr h'))
    · rcases List.mem_cons.mp hx with h | h
      · exact Or.inl h
      · exact Or.inr h

lemma mem_sortByAreaDesc {x : Contour} {l : List Contour} (hx : x ∈ sortByAreaDesc l) : x ∈ l := by
  suffices h : ∀ (l : List Contour) (acc : List Contour),
      x ∈ l.foldl (fun a c => insertDesc c a) acc → x ∈ l ∨ x ∈ acc by
    rcases h l [] hx with h' | h'
    · exact h'
    · simp at h'
  intro l
  induction l with
  | nil =>
    intro acc h
    exact Or.inr h
  | cons c cs ih =>
    intro acc h
    simp only [List.foldl_cons] at h
    rcases ih (insertDesc c acc) h with h' | h'
    · exact Or.inl (List.mem_cons.mpr (Or.inr h'))
    · rcases mem_insertDesc h' with h'' | h''
      · exact Or.inl (List.mem_cons.mpr (Or.inl h''))
      · exact Or.inr h''

lemma mem_capContours {cfg : Config} {l : List Contour} {c : Contour}
    (hc : c ∈ capContours cfg l) : c ∈ l := by
  unfold capContours at hc
  split at hc
  · exact mem_sortByAreaDesc (List.mem_of_mem_take hc)
  · exact hc

lemma mem_filterByArea {cfg : Config} {l : List Contour} {c : Contour}
    (hc : c ∈ filterByArea cfg l) :
    c ∈ l ∧ cfg.minContourArea ≤ c.area ∧ c.area ≤ cfg.maxContourArea := by
  unfold filterByArea at hc
  have h := List.mem_filter.mp hc
  have h2 := h.2
  simp only [Bool.and_eq_true, decide_eq_true_eq] at h2
  exact ⟨h.1, h2⟩

/-- The configuration of the C1 counterexample: a legal configuration with
area band [1, 4], merge distance 10, 1-by-1 morphology kernel. -/
def cfgC1 : Config where
  motionThreshold := 35
  minContourArea := 1
  maxContourArea := 4
  gaussianBlurSize := 21
  morphologyKernelSize := 1
  persistenceFrames := 2
  backgroundUpdateRate := 5 / 1000
  mergeNearbyContours := true
  contourMergeDistance := 10
  minHumanArea := 3000
  maxDetectionObjects := 5
  alertCooldown := 3
  autoResetBackground := true
  resetBackgroundInterval := 300
  adaptiveThreshold := true

/-- The binary mask of the C1 counterexample: two solid 2-by-3 foreground
rectangles in columns 0-1 and 4-5 of a 6-by-3 mask.  Each is a separate
component whose traced outer contour has `cv2.contourArea`
`(2 - 1) * (3 - 1) = 2`, inside the band [1, 4]; their box centers are 4
apart, within the merge distance 10, so the merge pass unions them. -/
def maskC1 : Img := ⟨6, 3, fun x _ => if x ≤ 1 || (4 ≤ x && x ≤ 5) then 255 else 0⟩

/-- C1 counterexample: on `maskC1` under `cfgC1` both components pass the
area filter with area 2 each, and the extraction step returns exactly one
region, the merged enclosing rectangle with polygon area
`(6 - 0) * (3 - 0) = 18`, outside the configured band [1, 4] - so the
claim that every returned region has area within
`[minContourArea, maxContourArea]` fails. -/
theorem mergeNearby_area_band_counterexample :
    regionExtract cfgC1 maskC1 = [⟨0, 0, 7, 4, 18⟩]
    ∧ ¬ (∀ c ∈ regionExtract cfgC1 maskC1,
          cfgC1.minContourArea ≤ c.area ∧ c.area ≤ cfgC1.maxContourArea) := by
  constructor
  · decide
  · decide

/-- C1 amended: every region surviving the area filter has area within
`[minContourArea, maxContourArea]`, and with the merge pass disabled the
whole extraction step only returns such regions; the merge pass itself,
however, replaces regions by enclosing bounding rectangles whose area can
leave the band (see the counterexample). -/
theorem regionExtract_area_band_of_no_merge (cfg : Config) (mask : Img) (cs : List Contour)
    (hmerge : cfg.mergeNearbyContours = false) :
    (∀ c ∈ filterByArea cfg cs,
        cfg.minContourArea ≤ c.area ∧ c.area ≤ cfg.maxContourArea)
    ∧ (∀ c ∈ regionExtract cfg mask,
        cfg.minContourArea ≤ c.area ∧ c.area ≤ cfg.maxContourArea) := by
  constructor
  · intro c hc
    exact (mem_filterByArea hc).2
  · intro c hc
    unfold regionExtract at hc
    rw [show mergeNearby cfg
          (filterByArea cfg (findContours (morphPipeline cfg.morphologyKernelSize mask)))
        = filterByArea cfg (findContours (morphPipeline cfg.morphologyKernelSize mask)) by
      simp [mergeNearby, hmerge]] at hc
    exact (mem_filterByArea (mem_capContours hc)).2

/-- Witness for C1 (amended): with merging disabled, a solid 2-by-3 mask
under the band [1, 4] yields the single region of contour area 2, which
the theorem places inside the band. -/
theorem regionExtract_area_band_of_no_merge_witness :
    ({ cfgC1 with mergeNearbyContours := false } : Config).minContourArea
        ≤ (⟨0, 0, 2, 3, 2⟩ : Contour).area
    ∧ (⟨0, 0, 2, 3, 2⟩ : Contour).area
        ≤ ({ cfgC1 with mergeNearbyContours := false } : Config).maxContourArea :=
  (regionExtract_area_band_of_no_merge { cfgC1 with mergeNearbyContours := false }
      ⟨2, 3, fun _ _ => 255⟩ [] rfl).2 ⟨0, 0, 2, 3, 2⟩ (by decide)

/-! ### C10: an unmerged singleton of exactly minimal area is dropped -/

/-- Configuration for the C10 witness: band [2, 10], merge distance 10. -/
def cfgC10 : Config :=
  { cfgC1 with minContourArea := 2, maxContourArea := 10 }

/-! ### C5: the lighting baseline and adaptive threshold -/

/-- C5 counterexample: with the stock configuration (base threshold 35,
adaptive thresholding on) at a baseline-refresh tick, a bright scene
(mean 210) sets the threshold to 45 while a dark scene (mean 40) sets it
to 50 - the bright offset (10) is smaller than the dark offset (15), not
larger as claimed. -/
theorem bright_offset_smaller_than_dark :
    (preprocessFrame defaultConfig (fun _ : Unit => ⟨1, 1, fun _ _ => 210⟩)
        { initState defaultConfig 0 with frameCount := 30 } ()).2.currentThreshold = 45
    ∧ (preprocessFrame defaultConfig (fun _ : Unit => ⟨1, 1, fun _ _ => 40⟩)
        { initState defaultConfig 0 with frameCount := 30 } ()).2.currentThreshold = 50
    ∧ (preprocessFrame defaultConfig (fun _ : Unit => ⟨1, 1, fun _ _ => 210⟩)
        { initState defaultConfig 0 with frameCount := 30 } ()).2.currentThreshold
      < (preprocessFrame defaultConfig (fun _ : Unit => ⟨1, 1, fun _ _ => 40⟩)
        { initState defaultConfig 0 with frameCount := 30 } ()).2.currentThreshold := by
  have hbright : meanImg (⟨1, 1, fun _ _ => 210⟩ : Img) = 210 := by
    norm_num [meanImg, allPositions, List.range_succ]
  have hdark : meanImg (⟨1, 1, fun _ _ => 40⟩ : Img) = 40 := by
    norm_num [meanImg, allPositions, List.range_succ]
  refine ⟨?_, ?_, ?_⟩ <;>
    norm_num [preprocessFrame, initState, defaultConfig, hbright, hdark]

/-- C5 amended: every 30 ticks the preprocessor recomputes the lighting
baseline as the mean luminance of the smoothed frame, and with adaptive
thresholding enabled a dark scene (baseline below 50) adds the fixed
offset 15 to the base threshold, a bright scene (baseline above 200) adds
the smaller offset 10, and a mid-range scene uses the base threshold
unmodified. -/
theorem adaptive_threshold_recalibration (cfg : Config) {F : Type} (pre : F → Img)
    (st : DState) (frame : F)
    (h30 : st.frameCount % 30 = 0) (hA : cfg.adaptiveThreshold = true) :
    ((preprocessFrame cfg pre st frame).1 = pre frame)
    ∧ ((preprocessFrame cfg pre st frame).2.lightingBaseline = meanImg (pre frame))
    ∧ (meanImg (pre frame) < 50 →
        (preprocessFrame cfg pre st frame).2.currentThreshold = cfg.motionThreshold + 15)
    ∧ (200 < meanImg (pre frame) →
        (preprocessFrame cfg pre st frame).2.currentThreshold = cfg.motionThreshold + 10)
    ∧ (50 ≤ meanImg (pre frame) → meanImg (pre frame) ≤ 200 →
        (preprocessFrame cfg pre st frame).2.currentThreshold = cfg.motionThreshold) := by
  refine ⟨?_, ?_, ?_, ?_, ?_⟩
  · simp [preprocessFrame, h30]
  · simp [preprocessFrame, h30]
  · intro hdark
    simp [preprocessFrame, h30, hA, hdark]
  · intro hbright
    have hnd : ¬ meanImg (pre frame) < 50 := by
      intro h
      exact absurd (h.trans (by norm_num)) (not_lt.mpr hbright.le)
    simp [preprocessFrame, h30, hA, hnd, hbright]
  · intro hlo hhi
    have hnd : ¬ meanImg (pre frame) < 50 := not_lt.mpr hlo
    have hnb : ¬ 200 < meanImg (pre frame) := not_lt.mpr hhi
    simp [preprocessFrame, h30, hA, hnd, hnb]

/-- Witness for C5 (amended): a concrete bright 1-by-1 frame (value 210)
at a refresh tick yields baseline 210 and threshold 35 + 10. -/
theorem adaptive_threshold_recalibration_witness :
    (preprocessFrame defaultConfig (fun _ : Unit => ⟨1, 1, fun _ _ => 210⟩)
        { initState defaultConfig 0 with frameCount := 30 } ()).2.lightingBaseline
      = meanImg ((fun _ : Unit => (⟨1, 1, fun _ _ => 210⟩ : Img)) ())
    ∧ (preprocessFrame defaultConfig (fun _ : Unit => ⟨1, 1, fun _ _ => 210⟩)
        { initState defaultConfig 0 with frameCount := 30 } ()).2.currentThreshold
      = defaultConfig.motionThreshold + 10 := by
  have h := adaptive_threshold_recalibration defaultConfig
    (fun _ : Unit => (⟨1, 1, fun _ _ => 210⟩ : Img))
    { initState defaultConfig 0 with frameCount := 30 } () (by decide) rfl
  exact ⟨h.2.1, h.2.2.2.1 (by norm_num [meanImg, allPositions, List.range_succ])⟩

/-! ### C4: identical frames produce a zero mask and no regions -/

lemma foldl_min_le_init (l : List Nat) (a : Nat) : l.foldl min a ≤ a := by
  induction l generalizing a with
  | nil => exact Nat.le_refl a
  | cons x xs ih => exact (ih (min a x)).trans (Nat.min_le_left a x)

lemma foldl_min_le_mem {v : Nat} (l : List Nat) (a : Nat) (h : v ∈ l) :
    l.foldl min a ≤ v := by
  induction l generalizing a with
  | nil => cases h
  | cons x xs ih =>
    rcases List.mem_cons.mp h with rfl | hv
    · exact (foldl_min_le_init xs (min a v)).trans (Nat.min_le_right a v)
    · exact ih (min a x) hv

lemma foldl_max_zero (l : List Nat) (h : ∀ v ∈ l, v = 0) : l.foldl max 0 = 0 := by
  induction l with
  | nil => rfl
  | cons x xs ih =>
    have hx : x = 0 := h x (List.mem_cons_self x xs)
    simp only [List.foldl_cons, hx, Nat.max_self]
    exact ih (fun v hv => h v (List.mem_cons_of_mem x hv))

lemma center_mem_windowOffsets {k : Nat} (hk : 1 ≤ k) : (k / 2, k / 2) ∈ windowOffsets k := by
  have hlt : k / 2 < k := Nat.div_lt_self hk (by norm_num)
  unfold windowOffsets
  rw [List.mem_flatten]
  refine ⟨(List.range k).map (fun j => (k / 2, j)), ?_, ?_⟩
  · exact List.mem_map.mpr ⟨k / 2, List.mem_range.mpr hlt, rfl⟩
  · exact List.mem_map.mpr ⟨k / 2, List.mem_range.mpr hlt, rfl⟩

lemma dilate_IBZ {m : Img} {k : Nat} (hm : IBZ m) : IBZ (dilateImg m k) := by
  intro x y hx hy
  apply foldl_max_zero
  intro v hv
  obtain ⟨d, _, rfl⟩ := List.mem_map.mp hv
  unfold pixAtI
  split
  · next hb =>
    obtain ⟨hx0, hxw, hy0, hyh⟩ := hb
    exact hm _ _ (by omega) (by omega)
  · rfl

lemma erode_IBZ {m : Img} {k : Nat} (hk : 1 ≤ k) (hm : IBZ m) : IBZ (erodeImg m k) := by
  intro x y hx hy
  have hx' : x < m.w := hx
  have hy' : y < m.h := hy
  have h0 : (0 : Nat) ∈ windowVals m k 255 x y := by
    unfold windowVals
    apply List.mem_map.mpr
    refine ⟨(k / 2, k / 2), center_mem_windowOffsets hk, ?_⟩
    have hxx : ((x : Int) + ((k / 2 : Nat) : Int) - ((k / 2 : Nat) : Int)) = (x : Int) := by ring
    have hyy : ((y : Int) + ((k / 2 : Nat) : Int) - ((k / 2 : Nat) : Int)) = (y : Int) := by ring
    show pixAtI m 255 _ _ = 0
    rw [hxx, hyy]
    unfold pixAtI
    rw [if_pos ⟨Int.natCast_nonneg x, by exact_mod_cast hx', Int.natCast_nonneg y,
      by exact_mod_cast hy'⟩]
    rw [Int.toNat_natCast, Int.toNat_natCast]
    exact hm x y hx' hy'
  have hle := foldl_min_le_mem (windowVals m k 255 x y) 255 h0
  exact Nat.le_zero.mp hle

lemma diffMask_self_IBZ (p : Img) (thr : Nat) : IBZ (diffMask p p thr) := by
  intro x y _ _
  show (if thr < natAbsDiff (p.pix x y) (p.pix x y) then 255 else 0) = 0
  rw [if_neg]
  unfold natAbsDiff
  simp

lemma morphPipeline_IBZ {m : Img} {k : Nat} (hk : 1 ≤ k) (hm : IBZ m) :
    IBZ (morphPipeline k m) := by
  unfold morphPipeline morphClose morphOpen
  exact dilate_IBZ (erode_IBZ hk (dilate_IBZ (dilate_IBZ (erode_IBZ hk hm))))

lemma regionExtract_nil (cfg : Config) (mask : Img)
    (hk : 1 ≤ cfg.morphologyKernelSize) (hm : IBZ mask) :
    regionExtract cfg mask = [] := by
  unfold regionExtract findContours
  rw [foregroundPositions_nil (morphPipeline_IBZ hk hm)]
  show capContours cfg (mergeNearby cfg (filterByArea cfg [])) = []
  have h1 : filterByArea cfg ([] : List Contour) = [] := rfl
  rw [h1]
  have h2 : mergeNearby cfg ([] : List Contour) = [] := by
    unfold mergeNearby
    rw [if_pos]
    simp
  rw [h2]
  unfold capContours
  rw [if_neg]
  simp

lemma mem_stepHist {n : Nat} {hist : List Bool} {x b : Bool}
    (hb : b ∈ stepHist n hist x) : b ∈ hist ++ [x] := by
  unfold stepHist at hb
  dsimp only at hb
  split at hb
  · exact List.mem_of_mem_drop hb
  · exact hb

lemma stepHist_all_false {n : Nat} {hist : List Bool}
    (hh : ∀ b ∈ hist, b = false) :
    ∀ b ∈ stepHist n hist false, b = false := by
  intro b hb
  rcases List.mem_append.mp (mem_stepHist hb) with h | h
  · exact hh b h
  · simpa using h

lemma countTrue_zero {hist : List Bool} (hh : ∀ b ∈ hist, b = false) :
    countTrue hist = 0 := by
  unfold countTrue
  rw [List.filter_eq_nil_iff.mpr]
  · rfl
  · intro b hb
    simp [hh b hb]

lemma persistentCheck_false {n : Nat} (hn : 2 ≤ n) {hist : List Bool}
    (hh : ∀ b ∈ hist, b = false) : persistentCheck n hist = false := by
  have hd : decide (n - 1 ≤ countTrue hist) = false := by
    rw [countTrue_zero hh]
    exact decide_eq_false (by omega)
  unfold persistentCheck
  rw [hd, Bool.and_false]

lemma detect_step (cfg : Config) (st : DState) (cur : Img)
    (hk : 1 ≤ cfg.morphologyKernelSize) (hn : 2 ≤ cfg.persistenceFrames)
    (hprev : st.prevFrame = none ∨ st.prevFrame = some cur)
    (hhist : ∀ b ∈ st.motionHistory, b = false) :
    (detectMotionEnhanced cfg st cur).2.2.2 = false
    ∧ (detectMotionEnhanced cfg st cur).1.prevFrame = some cur
    ∧ ∀ b ∈ (detectMotionEnhanced cfg st cur).1.motionHistory, b = false := by
  rcases hprev with hp | hp
  · have h := detect_first cfg st cur hp
    refine ⟨?_, h.2.1, ?_⟩
    · rw [h.1]
    · rw [h.2.2]
      exact hhist
  · have hcontours : regionExtract cfg (diffMask cur cur st.currentThreshold) = [] :=
      regionExtract_nil cfg _ hk (diffMask_self_IBZ cur st.currentThreshold)
    simp only [detectMotionEnhanced, hp, hcontours]
    have hb : decide (0 < ([] : List Contour).length) = false := rfl
    rw [hb]
    exact ⟨persistentCheck_false hn (stepHist_all_false hhist), trivial,
      stepHist_all_false hhist⟩

lemma processTick_no_event (cfg : Config) {F : Type} (pre : F → Img) (f : F)
    (st : DState) (t : ℚ)
    (hk : 1 ≤ cfg.morphologyKernelSize) (hn : 2 ≤ cfg.persistenceFrames)
    (hprev : st.prevFrame = none ∨ st.prevFrame = some (pre f))
    (hhist : ∀ b ∈ st.motionHistory, b = false) :
    (processTick cfg pre st t f).2 = none
    ∧ (processTick cfg pre st t f).1.prevFrame = some (pre f)
    ∧ ∀ b ∈ (processTick cfg pre st t f).1.motionHistory, b = false := by
  have h2 : ((autoResetBackground cfg { st with frameCount := st.frameCount + 1 } t).prevFrame = none
        ∨ (autoResetBackground cfg { st with frameCount := st.frameCount + 1 } t).prevFrame
            = some (pre f))
      ∧ ∀ b ∈ (autoResetBackground cfg { st with frameCount := st.frameCount + 1 } t).motionHistory,
          b = false := by
    rcases autoReset_fields cfg { st with frameCount := st.frameCount + 1 } t with ⟨ha, hb⟩ | ⟨ha, hb⟩
    · rw [ha, hb]
      exact ⟨hprev, hhist⟩
    · rw [ha, hb]
      exact ⟨Or.inl rfl, by simp⟩
  have hpp := preprocess_fields cfg pre
    (autoResetBackground cfg { st with frameCount := st.frameCount + 1 } t) f
  have hdet := detect_step cfg
    (preprocessFrame cfg pre
      (autoResetBackground cfg { st with frameCount := st.frameCount + 1 } t) f).2
    (pre f) hk hn (by rw [hpp.2.1]; exact h2.1) (by rw [hpp.2.2]; exact h2.2)
  simp only [processTick]
  rw [hpp.1]
  rw [hdet.1]
  have hgate : ∀ (cd last t' : ℚ), alertGate cd last t' false = (last, false) := by
    intro cd last t'
    simp [alertGate]
  rw [hgate]
  dsimp only
  rw [if_neg Bool.false_ne_true]
  exact ⟨rfl, hdet.2.1, hdet.2.2⟩

lemma runTicks_no_events (cfg : Config) {F : Type} (pre : F → Img) (f : F)
    (hk : 1 ≤ cfg.morphologyKernelSize) (hn : 2 ≤ cfg.persistenceFrames) :
    ∀ (ts : List ℚ) (st : DState),
      (st.prevFrame = none ∨ st.prevFrame = some (pre f)) →
      (∀ b ∈ st.motionHistory, b = false) →
      (runTicks cfg pre st (ts.map (fun t => (t, f)))).2 = [] := by
  intro ts
  induction ts with
  | nil =>
    intro st _ _
    rfl
  | cons t rest ih =>
    intro st hprev hhist
    obtain ⟨hev, hp, hh⟩ := processTick_no_event cfg pre f st t hk hn hprev hhist
    simp only [List.map_cons, runTicks]
    rw [hev]
    exact ih _ (Or.inr hp) hh

/-- C4: feeding the full pipeline (stock configuration, fresh detector)
any sequence of pixel-wise identical frames longer than the persistence
window never emits a MotionEvent. -/
theorem identical_frames_never_emit {F : Type} (pre : F → Img) (f : F)
    (ts : List ℚ) (t0 : ℚ)
    (_hlen : defaultConfig.persistenceFrames < ts.length) :
    (runTicks defaultConfig pre (initState defaultConfig t0)
      (ts.map (fun t => (t, f)))).2 = [] :=
  runTicks_no_events defaultConfig pre f (by decide) (by decide) ts
    (initState defaultConfig t0) (Or.inl rfl) (by simp [initState])

/-- Witness for C4: three ticks of the same 1-by-1 frame produce no
events. -/
theorem identical_frames_never_emit_witness :
    (runTicks defaultConfig (fun _ : Unit => ⟨1, 1, fun _ _ => 128⟩)
      (initState defaultConfig 0)
      (([0, 0, 0] : List ℚ).map (fun t => (t, ())))).2 = [] :=
  identical_frames_never_emit (fun _ : Unit => ⟨1, 1, fun _ _ => 128⟩) () [0, 0, 0] 0
    (by decide)

/-! ### C10 machinery: a non-merging minimal-area contour is inert -/

lemma mergeCond_symm (mergeDist : Nat) (a b : Contour) :
    mergeCond mergeDist a b = mergeCond mergeDist b a := by
  simp only [mergeCond, natAbsDiff,
    Nat.max_comm (a.x + a.w / 2) (b.x + b.w / 2), Nat.min_comm (a.x + a.w / 2) (b.x + b.w / 2),
    Nat.max_comm (a.y + a.h / 2) (b.y + b.h / 2), Nat.min_comm (a.y + a.h / 2) (b.y + b.h / 2),
    Nat.min_comm (a.x + a.w) (b.x + b.w), Nat.max_comm a.x b.x,
    Nat.min_comm (a.y + a.h) (b.y + b.h), Nat.max_comm a.y b.y]

lemma getD_set_ne {l : List Bool} {i j : Nat} (h : i ≠ j) (a b : Bool) :
    (l.set i a).getD j b = l.getD j b := by
  simp [List.getD, List.getElem?_set_ne h]

lemma getD_set_self {l : List Bool} {i : Nat} (h : i < l.length) (a b : Bool) :
    (l.set i a).getD i b = a := by
  simp [List.getD, List.getElem?_set_self', List.getElem?_eq_getElem h]

lemma mergeOuter_skip (mergeDist minArea : Nat) (cs : List Contour)
    (s : List Bool × List Contour) (m : Nat) (hl : s.1.getD m true = true) :
    mergeOuter mergeDist minArea cs s m = s := by
  unfold mergeOuter
  rw [if_pos hl]

lemma mergeOuter_none (mergeDist minArea : Nat) (cs : List Contour)
    (s : List Bool × List Contour) (m : Nat)
    (hl : s.1.getD m true = false) (hcs : cs.get? m = none) :
    mergeOuter mergeDist minArea cs s m = s := by
  unfold mergeOuter
  rw [hl, hcs]
  rfl

lemma mergeOuter_proc (mergeDist minArea : Nat) (cs : List Contour)
    (s : List Bool × List Contour) (m : Nat) (c1 : Contour)
    (hl : s.1.getD m true = false) (hcs : cs.get? m = some c1) :
    mergeOuter mergeDist minArea cs s m =
      (if 1 < ((List.range cs.length).foldl (mergeInner mergeDist cs c1)
            ⟨s.1.set m true, c1.x, c1.y, c1.x + c1.w, c1.y + c1.h, [c1]⟩).merged.length
          || decide (minArea < c1.area)
       then (((List.range cs.length).foldl (mergeInner mergeDist cs c1)
              ⟨s.1.set m true, c1.x, c1.y, c1.x + c1.w, c1.y + c1.h, [c1]⟩).used,
             s.2 ++ [rectContour
              ((List.range cs.length).foldl (mergeInner mergeDist cs c1)
                ⟨s.1.set m true, c1.x, c1.y, c1.x + c1.w, c1.y + c1.h, [c1]⟩).minX
              ((List.range cs.length).foldl (mergeInner mergeDist cs c1)
                ⟨s.1.set m true, c1.x, c1.y, c1.x + c1.w, c1.y + c1.h, [c1]⟩).minY
              ((List.range cs.length).foldl (mergeInner mergeDist cs c1)
                ⟨s.1.set m true, c1.x, c1.y, c1.x + c1.w, c1.y + c1.h, [c1]⟩).maxX
              ((List.range cs.length).foldl (mergeInner mergeDist cs c1)
                ⟨s.1.set m true, c1.x, c1.y, c1.x + c1.w, c1.y + c1.h, [c1]⟩).maxY])
       else (((List.range cs.length).foldl (mergeInner mergeDist cs c1)
              ⟨s.1.set m true, c1.x, c1.y, c1.x + c1.w, c1.y + c1.h, [c1]⟩).used,
             s.2)) := by
  unfold mergeOuter
  rw [hl, hcs]
  rfl

lemma mergeInner_skip (mergeDist : Nat) (cs : List Contour) (c1 : Contour)
    (S : MergeState) (j : Nat) (hu : S.used.getD j true = true) :
    mergeInner mergeDist cs c1 S j = S := by
  unfold mergeInner
  rw [if_pos hu]

lemma mergeInner_far (mergeDist : Nat) (cs : List Contour) (c1 c2 : Contour)
    (S : MergeState) (j : Nat) (hcs : cs.get? j = some c2)
    (hcond : mergeCond mergeDist c1 c2 = false) :
    mergeInner mergeDist cs c1 S j = S := by
  unfold mergeInner
  by_cases hu : S.used.getD j true = true
  · rw [if_pos hu]
  · rw [Bool.eq_false_iff.mpr hu, hcs]
    simp [hcond]

lemma length_of_get?_eq_some {cs : List Contour} {m : Nat} {c1 : Contour}
    (hcs : cs.get? m = some c1) : m < cs.length := by
  by_contra hge
  rw [List.get?_eq_none.mpr (Nat.le_of_not_lt hge)] at hcs
  exact Option.noConfusion hcs

lemma getD_of_get?_eq_some {cs : List Contour} {m : Nat} {c c1 : Contour}
    (hcs : cs.get? m = some c1) : cs.getD m c = c1 := by
  simp [List.getD, ← List.get?_eq_getElem?, hcs]

/-- Lockstep relation for the inner merge loop: same growing box and
group, the right state differing only by contour `i` pre-marked used. -/
def InnerRel (n i : Nat) (l r : MergeState) : Prop :=
  r.used = l.used.set i true ∧ l.used.length = n
    ∧ r.minX = l.minX ∧ r.minY = l.minY ∧ r.maxX = l.maxX ∧ r.maxY = l.maxY
    ∧ r.merged = l.merged

lemma mergeInner_rel (mergeDist : Nat) (cs : List Contour) (c1 c : Contour) (i : Nat)
    (hin : i < cs.length) (hi : cs.get? i = some c)
    (hc1 : mergeCond mergeDist c1 c = false)
    {l r : MergeState} (hrel : InnerRel cs.length i l r) (j : Nat) :
    InnerRel cs.length i (mergeInner mergeDist cs c1 l j) (mergeInner mergeDist cs c1 r j) := by
  obtain ⟨hu, hlen, h1, h2, h3, h4, h5⟩ := hrel
  by_cases hji : j = i
  · subst hji
    have hr : r.used.getD j true = true := by
      rw [hu]
      exact getD_set_self (hlen ▸ hin) _ _
    have hlres : mergeInner mergeDist cs c1 l j = l := by
      by_cases hl : l.used.getD j true = true
      · exact mergeInner_skip _ _ _ _ _ hl
      · exact mergeInner_far _ _ _ _ _ _ hi hc1
    rw [hlres, mergeInner_skip _ _ _ _ _ hr]
    exact ⟨hu, hlen, h1, h2, h3, h4, h5⟩
  · have hne : i ≠ j := fun h => hji h.symm
    have hg : r.used.getD j true = l.used.getD j true := by
      rw [hu, getD_set_ne hne]
    by_cases hl : l.used.getD j true = true
    · rw [mergeInner_skip _ _ _ _ _ hl, mergeInner_skip _ _ _ _ _ (hg.trans hl)]
      exact ⟨hu, hlen, h1, h2, h3, h4, h5⟩
    · have hlf : l.used.getD j true = false := Bool.eq_false_iff.mpr hl
      have hrf : r.used.getD j true = false := hg.trans hlf
      cases hcs : cs.get? j with
      | none =>
        have hlres : mergeInner mergeDist cs c1 l j = l := by
          unfold mergeInner
          rw [hlf, hcs]
          rfl
        have hrres : mergeInner mergeDist cs c1 r j = r := by
          unfold mergeInner
          rw [hrf, hcs]
          rfl
        rw [hlres, hrres]
        exact ⟨hu, hlen, h1, h2, h3, h4, h5⟩
      | some c2 =>
        by_cases hm2 : mergeCond mergeDist c1 c2 = true
        · have hlres : mergeInner mergeDist cs c1 l j =
              ⟨l.used.set j true, min l.minX c2.x, min l.minY c2.y,
                max l.maxX (c2.x + c2.w), max l.maxY (c2.y + c2.h), l.merged ++ [c2]⟩ := by
            unfold mergeInner
            rw [hlf, hcs]
            simp [hm2]
          have hrres : mergeInner mergeDist cs c1 r j =
              ⟨r.used.set j true, min r.minX c2.x, min r.minY c2.y,
                max r.maxX (c2.x + c2.w), max r.maxY (c2.y + c2.h), r.merged ++ [c2]⟩ := by
            unfold mergeInner
            rw [hrf, hcs]
            simp [hm2]
          rw [hlres, hrres]
          refine ⟨?_, by simp [hlen], by rw [h1], by rw [h2], by rw [h3], by rw [h4],
            by rw [h5]⟩
          rw [hu, List.set_comm _ _ _ hne]
        · have hmf : mergeCond mergeDist c1 c2 = false := Bool.eq_false_iff.mpr hm2
          rw [mergeInner_far _ _ _ _ _ _ hcs hmf, mergeInner_far _ _ _ _ _ _ hcs hmf]
          exact ⟨hu, hlen, h1, h2, h3, h4, h5⟩

lemma foldl_mergeInner_rel (mergeDist : Nat) (cs : List Contour) (c1 c : Contour) (i : Nat)
    (hin : i < cs.length) (hi : cs.get? i = some c)
    (hc1 : mergeCond mergeDist c1 c = false) (L : List Nat) :
    ∀ {l r : MergeState}, InnerRel cs.length i l r →
      InnerRel cs.length i (L.foldl (mergeInner mergeDist cs c1) l)
        (L.foldl (mergeInner mergeDist cs c1) r) := by
  induction L with
  | nil =>
    intro l r hrel
    exact hrel
  | cons j L ih =>
    intro l r hrel
    exact ih (mergeInner_rel mergeDist cs c1 c i hin hi hc1 hrel j)

lemma foldl_mergeInner_id (mergeDist : Nat) (cs : List Contour) (c : Contour) (i : Nat)
    (hfar : ∀ j, j < cs.length → j ≠ i → mergeCond mergeDist c (cs.getD j c) = false)
    {S : MergeState} (hSi : S.used.getD i true = true) (L : List Nat) :
    L.foldl (mergeInner mergeDist cs c) S = S := by
  induction L with
  | nil => rfl
  | cons j L ih =>
    have hstep : mergeInner mergeDist cs c S j = S := by
      by_cases hu : S.used.getD j true = true
      · exact mergeInner_skip _ _ _ _ _ hu
      · cases hcs : cs.get? j with
        | none =>
          unfold mergeInner
          rw [Bool.eq_false_iff.mpr hu, hcs]
          rfl
        | some c2 =>
          have hji : j ≠ i := by
            intro h
            rw [h, hSi] at hu
            exact hu rfl
          have hcd : mergeCond mergeDist c c2 = false := by
            have h2 := hfar j (length_of_get?_eq_some hcs) hji
            rwa [getD_of_get?_eq_some hcs] at h2
          exact mergeInner_far _ _ _ _ _ _ hcs hcd
    rw [List.foldl_cons, hstep]
    exact ih

/-- Lockstep relation for the outer merge loop: same output so far, the
right used-list differing only by contour `i` pre-marked used. -/
def ORel (cs : List Contour) (i : Nat) (s r : List Bool × List Contour) : Prop :=
  r.1 = s.1.set i true ∧ r.2 = s.2 ∧ s.1.length = cs.length

lemma mergeOuter_rel (mergeDist minArea : Nat) (cs : List Contour) (c : Contour) (i : Nat)
    (hin : i < cs.length) (hi : cs.get? i = some c)
    (hmin : c.area = minArea)
    (hfar : ∀ j, j < cs.length → j ≠ i → mergeCond mergeDist c (cs.getD j c) = false)
    {s r : List Bool × List Contour} (hrel : ORel cs i s r) (m : Nat) :
    ORel cs i (mergeOuter mergeDist minArea cs s m) (mergeOuter mergeDist minArea cs r m) := by
  obtain ⟨hu, ho, hlen⟩ := hrel
  by_cases hmi : m = i
  · subst hmi
    have hr : r.1.getD m true = true := by
      rw [hu]
      exact getD_set_self (hlen ▸ hin) _ _
    rw [mergeOuter_skip _ _ _ _ _ hr]
    by_cases hl : s.1.getD m true = true
    · rw [mergeOuter_skip _ _ _ _ _ hl]
      exact ⟨hu, ho, hlen⟩
    · have hid : (List.range cs.length).foldl (mergeInner mergeDist cs c)
          ⟨s.1.set m true, c.x, c.y, c.x + c.w, c.y + c.h, [c]⟩ =
          (⟨s.1.set m true, c.x, c.y, c.x + c.w, c.y + c.h, [c]⟩ : MergeState) :=
        foldl_mergeInner_id mergeDist cs c m hfar
          (getD_set_self (hlen ▸ hin) _ _) _
      have hbranch : mergeOuter mergeDist minArea cs s m = (s.1.set m true, s.2) := by
        rw [mergeOuter_proc _ _ _ _ _ c (Bool.eq_false_iff.mpr hl) hi, hid]
        simp [hmin]
      rw [hbranch]
      refine ⟨?_, ho, by simp [hlen]⟩
      show r.1 = (s.1.set m true).set m true
      rw [hu, List.set_set]
  · have hne : i ≠ m := fun h => hmi h.symm
    have hg : r.1.getD m true = s.1.getD m true := by
      rw [hu, getD_set_ne hne]
    by_cases hl : s.1.getD m true = true
    · rw [mergeOuter_skip _ _ _ _ _ hl, mergeOuter_skip _ _ _ _ _ (hg.trans hl)]
      exact ⟨hu, ho, hlen⟩
    · have hlf : s.1.getD m true = false := Bool.eq_false_iff.mpr hl
      have hrf : r.1.getD m true = false := hg.trans hlf
      cases hcs : cs.get? m with
      | none =>
        rw [mergeOuter_none _ _ _ _ _ hlf hcs, mergeOuter_none _ _ _ _ _ hrf hcs]
        exact ⟨hu, ho, hlen⟩
      | some c1 =>
        have hcc1 : mergeCond mergeDist c c1 = false := by
          have h2 := hfar m (length_of_get?_eq_some hcs) hmi
          rwa [getD_of_get?_eq_some hcs] at h2
        have hc1c : mergeCond mergeDist c1 c = false := by
          rw [mergeCond_symm]
          exact hcc1
        have hrel0 : InnerRel cs.length i
            (⟨s.1.set m true, c1.x, c1.y, c1.x + c1.w, c1.y + c1.h, [c1]⟩ : MergeState)
            (⟨r.1.set m true, c1.x, c1.y, c1.x + c1.w, c1.y + c1.h, [c1]⟩ : MergeState) := by
          refine ⟨?_, by simp [hlen], rfl, rfl, rfl, rfl, rfl⟩
          show r.1.set m true = (s.1.set m true).set i true
          rw [hu, List.set_comm _ _ _ hne]
        obtain ⟨hfu, hflen, hf1, hf2, hf3, hf4, hf5⟩ :=
          foldl_mergeInner_rel mergeDist cs c1 c i hin hi hc1c (List.range cs.length) hrel0
        rw [mergeOuter_proc _ _ _ _ _ c1 hlf hcs, mergeOuter_proc _ _ _ _ _ c1 hrf hcs,
          hfu, hf1, hf2, hf3, hf4, hf5, ho]
        by_cases hK : (1 < ((List.range cs.length).foldl (mergeInner mergeDist cs c1)
              ⟨s.1.set m true, c1.x, c1.y, c1.x + c1.w, c1.y + c1.h, [c1]⟩).merged.length
            || decide (minArea < c1.area)) = true
        · rw [if_pos hK, if_pos hK]
          exact ⟨rfl, rfl, hflen⟩
        · rw [if_neg hK, if_neg hK]
          exact ⟨rfl, rfl, hflen⟩

lemma foldl_mergeOuter_rel (mergeDist minArea : Nat) (cs : List Contour) (c : Contour) (i : Nat)
    (hin : i < cs.length) (hi : cs.get? i = some c)
    (hmin : c.area = minArea)
    (hfar : ∀ j, j < cs.length → j ≠ i → mergeCond mergeDist c (cs.getD j c) = false)
    (L : List Nat) :
    ∀ {s r : List Bool × List Contour}, ORel cs i s r →
      ORel cs i (L.foldl (mergeOuter mergeDist minArea cs) s)
        (L.foldl (mergeOuter mergeDist minArea cs) r) := by
  induction L with
  | nil =>
    intro s r hrel
    exact hrel
  | cons m L ih =>
    intro s r hrel
    exact ih (mergeOuter_rel mergeDist minArea cs c i hin hi hmin hfar hrel m)

/-- The merge pass run with contour `i` excluded from consideration: its
used-flag starts `true`, so it joins no group and forms none. -/
def mergeExcluding (cfg : Config) (cs : List Contour) (i : Nat) : List Contour :=
  ((List.range cs.length).foldl
    (mergeOuter cfg.contourMergeDistance cfg.minContourArea cs)
    ((List.replicate cs.length false).set i true, [])).2

/-- C10: when merging is enabled and at least two regions survive the
area filter, a surviving region of area exactly `minContourArea` that
merges with no other region (not within the merge distance of, nor
overlapping, any other survivor) is dropped from the output: the filter
admits area equal to `minContourArea`, but the merge pass keeps an
unmerged singleton only when its area strictly exceeds it, so the result
is exactly what the merge pass produces with that region excluded. -/
theorem unmerged_min_area_contour_dropped (cfg : Config) (cs : List Contour)
    (c : Contour) (i : Nat)
    (hm : cfg.mergeNearbyContours = true)
    (hlen : 2 ≤ cs.length)
    (hi : cs.get? i = some c)
    (hmin : c.area = cfg.minContourArea)
    (hfar : ∀ j, j < cs.length → j ≠ i →
        mergeCond cfg.contourMergeDistance c (cs.getD j c) = false) :
    (∀ ds : List Contour, c ∈ ds → c.area ≤ cfg.maxContourArea → c ∈ filterByArea cfg ds)
    ∧ mergeNearby cfg cs = mergeExcluding cfg cs i := by
  constructor
  · intro ds hds hca
    unfold filterByArea
    refine List.mem_filter.mpr ⟨hds, ?_⟩
    rw [← hmin]
    simp [hca]
  · have hin : i < cs.length := length_of_get?_eq_some hi
    have hcond : (!cfg.mergeNearbyContours || decide (cs.length ≤ 1)) = false := by
      rw [hm]
      simp
      omega
    have hmain : mergeNearby cfg cs =
        ((List.range cs.length).foldl
          (mergeOuter cfg.contourMergeDistance cfg.minContourArea cs)
          (List.replicate cs.length false, [])).2 := by
      unfold mergeNearby
      rw [hcond]
      rfl
    rw [hmain]
    unfold mergeExcluding
    have hrel : ORel cs i (List.replicate cs.length false, [])
        ((List.replicate cs.length false).set i true, []) :=
      ⟨rfl, rfl, by simp⟩
    exact ((foldl_mergeOuter_rel cfg.contourMergeDistance cfg.minContourArea cs c i
      hin hi hmin hfar (List.range cs.length) hrel).2.1).symm

/-- Witness for C10: two far-apart survivors of areas exactly 2 (= the
minimal area) and 3 under the band [2, 10]: the merge output equals the
output with the minimal-area region excluded. -/
theorem unmerged_min_area_contour_dropped_witness :
    (∀ ds : List Contour, (⟨0, 0, 1, 2, 2⟩ : Contour) ∈ ds →
        (⟨0, 0, 1, 2, 2⟩ : Contour).area ≤ cfgC10.maxContourArea →
        (⟨0, 0, 1, 2, 2⟩ : Contour) ∈ filterByArea cfgC10 ds)
    ∧ mergeNearby cfgC10 [⟨0, 0, 1, 2, 2⟩, ⟨50, 0, 1, 2, 3⟩]
        = mergeExcluding cfgC10 [⟨0, 0, 1, 2, 2⟩, ⟨50, 0, 1, 2, 3⟩] 0 :=
  unmerged_min_area_contour_dropped cfgC10 [⟨0, 0, 1, 2, 2⟩, ⟨50, 0, 1, 2, 3⟩]
    ⟨0, 0, 1, 2, 2⟩ 0 rfl (by decide) rfl rfl (by decide)
